import Mathlib

/-!
Verification of the msp430softserial example application (`main.c`).

The application code under verification is `main.c`: the echo loop
`loop()`, the startup routine `setup()`, `main()`, and the output helpers
`putchar`, `print_hexb`, `print`, plus the DCO calibration routine
`Set_DCO`.  The SoftSerial engine itself (`softserial.c`/`softserial.h`)
is not part of the sources at hand; its operations are modelled from the
specification's interface contracts (§4.4, §6 of the spec):
the RX queue is a FIFO of received bytes (`List Nat`, oldest first), and
the TX side is observed as the list of bytes accepted by the blocking
`SoftSerial_xmit`.
-/

/-- Modelled from the spec: `read() -> byte or "none"` — checks
`available()` first; returns the oldest buffered byte of the RX queue, or
the sentinel `-1` indicating none.  (`softserial.c` is not among the
sources; this follows §6 of the spec.)  The result is the C `int` return
value together with the RX queue after the call. -/
def SoftSerial_read : List Nat → Int × List Nat
  | [] => (-1, [])
  | b :: rest => ((b : Int), rest)

/-- Modelled from the spec: `is_empty` on the RX queue. -/
def SoftSerial_empty (q : List Nat) : Bool := q.isEmpty

/-- Modelled from the spec: `available() -> count` — number of bytes
currently buffered in the RX queue. -/
def SoftSerial_available (q : List Nat) : Nat := q.length

/-- Modelled from the spec: `read_unchecked() -> byte` with the
caller-guaranteed precondition `available() > 0`; calling it on an empty
queue is undefined behavior, which the model makes observable as `none`. -/
def SoftSerial_read_nc : List Nat → Option (Nat × List Nat)
  | [] => none
  | b :: rest => some (b, rest)

/-- Modelled from the spec: the blocking variant of `transmit(byte)`
busy-polls until TX-queue space is available, so every byte passed is
eventually accepted; the TX side is observed as the unbounded list of
accepted bytes, in FIFO order.  The parameter is a C `uint8_t`, hence the
truncation of the argument. -/
def SoftSerial_xmit (b : Nat) (tx : List Nat) : List Nat := tx ++ [b % 256]

/-- The C cast `(uint8_t)c` applied to an `int` value: reduction modulo
256 of the mathematical value (Lean's `Int.emod` is non-negative for a
positive modulus, matching C's unsigned conversion). -/
def toUint8 (c : Int) : Nat := (c % 256).toNat

/-- Embeds the inner drain loop of `loop()` (main.c:157-159):
`while((c=SoftSerial_read()) != -1) { SoftSerial_xmit((uint8_t)c); }`.
State: RX queue and observed TX byte list; returns both after the loop
exits. -/
def echoDrain (rx tx : List Nat) : List Nat × List Nat :=
  if h : (SoftSerial_read rx).1 = -1 then ((SoftSerial_read rx).2, tx)
  else
    echoDrain (SoftSerial_read rx).2
      (SoftSerial_xmit (toUint8 (SoftSerial_read rx).1) tx)
termination_by rx.length
decreasing_by
  cases rx with
  | nil => simp [SoftSerial_read] at h
  | cons b rest => simp [SoftSerial_read]

/-- Embeds one iteration of the `while(1)` body of `loop()` in its
compiled-in variant (main.c:154-160): the drain runs only when
`!SoftSerial_empty()`. -/
def loopBody (rx tx : List Nat) : List Nat × List Nat :=
  if SoftSerial_empty rx then (rx, tx) else echoDrain rx tx

/-- Embeds successive iterations of `loop()`: `qs` lists, per iteration,
the RX-queue content delivered by the interrupt handlers before that
iteration's drain. -/
def echoRun (qs : List (List Nat)) (tx : List Nat) : List Nat :=
  qs.foldl (fun t q => (loopBody q t).2) tx

/-- Observable events of the application code: board bring-up steps,
`SoftSerial_init`, the global interrupt enable, a hypothetical interrupt
disable and a hypothetical blocking wait (emitted by no code path here),
and the SoftSerial calls made from normal context with their
argument/result. -/
inductive Event where
  | boardE : Event
  | initE : Event
  | geiE : Event
  | disableIntE : Event
  | waitE : Event
  | xmitE : Nat → Event
  | readE : Int → Event
  | emptyE : Bool → Event
  | availableE : Nat → Event
  | readNcE : Nat → Event
deriving DecidableEq

def isReadEv : Event → Bool
  | Event.readE _ => true
  | _ => false

def isXmitEv : Event → Bool
  | Event.xmitE _ => true
  | _ => false

def isNonSentinelReadEv : Event → Bool
  | Event.readE r => r != -1
  | _ => false

def isInitEv : Event → Bool
  | Event.initE => true
  | _ => false

/-- Call/return events of the drain loop `while((c=SoftSerial_read()) != -1)
SoftSerial_xmit((uint8_t)c);` (main.c:157-159): each buffered byte gives a
read event then a xmit event; the final read returns the sentinel `-1`
and is followed by no xmit. -/
def drainEvents : List Nat → List Event
  | [] => [Event.readE (-1)]
  | b :: rest => Event.readE (b : Int) :: Event.xmitE (toUint8 (b : Int)) :: drainEvents rest

/-- Events of one iteration of the `loop()` body (main.c:154-160): poll
`SoftSerial_empty()` first; drain only when it reports data present. -/
def loopEvents (q : List Nat) : List Event :=
  Event.emptyE (SoftSerial_empty q) :: (if SoftSerial_empty q then [] else drainEvents q)

/-- Embeds the do-while drain of the unchecked-read variant of `loop()`
(main.c:165-168): `do { uint8_t c = SoftSerial_read_nc();
SoftSerial_xmit(c); } while (--cnt);` — the body runs once per unit of
`cnt`.  `none` propagates a `SoftSerial_read_nc` precondition violation
(a read from an empty queue); otherwise the RX queue and the observed TX
byte list after the loop are returned. -/
def ncDrain : Nat → List Nat → List Nat → Option (List Nat × List Nat)
  | 0, q, tx => some (q, tx)
  | cnt + 1, q, tx =>
      (SoftSerial_read_nc q).bind fun p =>
        ncDrain cnt p.2 (SoftSerial_xmit (p.1 % 256) tx)

/-- Embeds one iteration of the `while(1)` body of the unchecked-read
variant of `loop()` (main.c:161-169): `cnt = SoftSerial_available()`; the
drain runs only when `cnt` is nonzero. -/
def loopBodyNc (q tx : List Nat) : Option (List Nat × List Nat) :=
  if SoftSerial_available q = 0 then some (q, tx)
  else ncDrain (SoftSerial_available q) q tx

/-- Embeds `putchar()` (main.c:61-65): transmits its argument (truncated
by `SoftSerial_xmit`'s `uint8_t` parameter) and returns 0. -/
def putchar (c : Int) (tx : List Nat) : Int × List Nat :=
  (0, SoftSerial_xmit (toUint8 c) tx)

/-- The lookup table `hextbl` of `print_hexb()` (main.c:72):
`"0123456789ABCDEF"` as ASCII codes. -/
def hextbl : List Nat :=
  [48, 49, 50, 51, 52, 53, 54, 55, 56, 57, 65, 66, 67, 68, 69, 70]

/-- Embeds `print_hexb()` (main.c:70-76): transmits `hextbl[c >> 4]` then
`hextbl[c & 0x0F]`. -/
def print_hexb (c : Nat) (tx : List Nat) : List Nat :=
  SoftSerial_xmit (hextbl.getD (c &&& 0x0F) 0)
    (SoftSerial_xmit (hextbl.getD (c >>> 4) 0) tx)

/-- Embeds `print()` (main.c:81-86): `do { SoftSerial_xmit(*s++); }
while (*s);`.  The argument is the byte memory starting at `s` (a
well-formed call passes the string's bytes followed by its NUL
terminator); reading past the supplied memory is modelled as reading 0,
and the empty-memory case (already past the buffer) transmits nothing. -/
def print : List Nat → List Nat → List Nat
  | [], tx => tx
  | [b], tx => SoftSerial_xmit b tx
  | b :: r :: rs, tx =>
      if r = 0 then SoftSerial_xmit b tx
      else print (r :: rs) (SoftSerial_xmit b tx)

/-- The bytes `print` appends to the TX observation list. -/
def printedBytes : List Nat → List Nat
  | [] => []
  | [b] => [b % 256]
  | b :: r :: rs => b % 256 :: (if r = 0 then [] else printedBytes (r :: rs))

/-- Decodes one ASCII hex digit from `hextbl`'s alphabet back to its
numeric value. -/
def hexVal (d : Nat) : Nat := if d < 58 then d - 48 else d - 55

/-- Byte memory of a C string literal: its characters' codes. -/
def strBytes (s : String) : List Nat := s.data.map Char.toNat

/-- The xmit events corresponding to a list of transmitted bytes. -/
def xmitEvents (bs : List Nat) : List Event := bs.map Event.xmitE

/-- Modelled from the spec: the outcome `SoftSerial_init()` reports at
setup time — success, or `UnsupportedBaudRate` when the requested baud
rate cannot be represented within the timer's resolution at the current
clock rate (spec §4.1, §6, §7; `softserial.c` is not among the
sources). -/
inductive InitResult where
  | ok : InitResult
  | unsupportedBaudRate : InitResult
deriving DecidableEq

/-- The xmit events of the `SHOW_DCO_SETTINGS` block of `setup()`
(main.c:132-136), printing the calibrated `BCSCTL1` and `DCOCTL` register
values `bcs` and `dco`. -/
def setupOutputEvents (bcs dco : Nat) : List Event :=
  xmitEvents (print (strBytes ("\r\n>>Calibrated DCO values are:\r\n") ++ [0]) [])
    ++ xmitEvents (print (strBytes ("BCSCTL1= 0x") ++ [0]) [])
    ++ xmitEvents (print_hexb bcs [])
    ++ xmitEvents (print (strBytes ("\r\n") ++ [0]) [])
    ++ xmitEvents (print (strBytes ("DCOCTL = 0x") ++ [0]) [])
    ++ xmitEvents (print_hexb dco [])
    ++ xmitEvents (print (strBytes ("\r\n") ++ [0]) [])

/-- Event trace of `setup()` (main.c:96-137): `nBoard` board bring-up
steps (watchdog stop, pin selection, crystal setup, stabilization delay,
and DCO configuration — whether by constants or by `Set_DCO`), then the
`SoftSerial_init()` call, then `__enable_interrupt()`, then the
`SHOW_DCO_SETTINGS` printing.  `r` is the initialization outcome the spec
says `SoftSerial_init` reports; the call at main.c:129 is a C expression
statement that discards any result, so the trace does not depend on
`r`. -/
def setupTrace (nBoard bcs dco : Nat) (r : InitResult) : List Event :=
  List.replicate nBoard Event.boardE
    ++ Event.initE :: Event.geiE :: setupOutputEvents bcs dco

/-- Event trace of `main()` (main.c:179-186): `setup()` once, then
`loop()` iterations; `qs` lists the RX-queue content delivered before
each iteration's drain. -/
def mainTrace (nBoard bcs dco : Nat) (r : InitResult) (qs : List (List Nat)) :
    List Event :=
  setupTrace nBoard bcs dco r ++ (qs.map loopEvents).flatten

/-- The mutable state of `Set_DCO`'s calibration loop (main.c:199-219):
the 8-bit `DCOCTL` and `BCSCTL1` registers and the 16-bit `Oldcapture`
variable. -/
structure DcoState where
  dcoctl : Nat
  bcsctl1 : Nat
  oldcapture : Nat
deriving DecidableEq

/-- Embeds one iteration of `Set_DCO`'s `while(1)` calibration loop
(main.c:199-219) after the capture flag wait: `taccr0` is the captured
`TACCR0` value for this iteration (16 bits).  `Compare` is the 16-bit
unsigned difference from `Oldcapture`; on `Delta == Compare` the loop
breaks (second component `true`); otherwise `DCOCTL` is stepped with
8-bit wraparound, and on wraparound `BCSCTL1` is stepped under the RSEL
guards `BCSCTL1 & 0x0f` (nonzero) resp. `(BCSCTL1 & 0x0f) != 0x0f`. -/
def dcoStep (delta taccr0 : Nat) (s : DcoState) : DcoState × Bool :=
  let t := taccr0 % 65536
  let compare := (t + 65536 - s.oldcapture % 65536) % 65536
  if delta = compare then (⟨s.dcoctl, s.bcsctl1, t⟩, true)
  else if delta < compare then
    let d := (s.dcoctl + 255) % 256
    let b := if d = 0xFF then
        (if s.bcsctl1 % 16 ≠ 0 then (s.bcsctl1 + 255) % 256 else s.bcsctl1)
      else s.bcsctl1
    (⟨d, b, t⟩, false)
  else
    let d := (s.dcoctl + 1) % 256
    let b := if d = 0 then
        (if s.bcsctl1 % 16 ≠ 15 then (s.bcsctl1 + 1) % 256 else s.bcsctl1)
      else s.bcsctl1
    (⟨d, b, t⟩, false)

theorem echoDrain_eq (rx tx : List Nat) :
    echoDrain rx tx = ([], tx ++ rx.map (· % 256)) := by
  induction rx generalizing tx with
  | nil => rw [echoDrain]; simp [SoftSerial_read]
  | cons b rest ih =>
    rw [echoDrain]
    have hne : ((b : Int)) ≠ -1 := by omega
    simp only [SoftSerial_read, hne, if_neg, dite_eq_ite, if_false]
    rw [ih]
    simp [SoftSerial_xmit, toUint8]
    omega

theorem loopBody_eq (rx tx : List Nat) :
    loopBody rx tx = ([], tx ++ rx.map (· % 256)) ∨
      (rx = [] ∧ loopBody rx tx = (rx, tx)) := by
  by_cases h : SoftSerial_empty rx
  · right
    refine ⟨?_, by simp [loopBody, h]⟩
    simpa [SoftSerial_empty, List.isEmpty_iff] using h
  · left
    simp [loopBody, h, echoDrain_eq]

theorem loopBody_snd (rx tx : List Nat) :
    (loopBody rx tx).2 = tx ++ rx.map (· % 256) := by
  rcases loopBody_eq rx tx with h | ⟨hnil, h⟩
  · rw [h]
  · subst hnil; rw [h]; simp

/-- C1: over any run of `loop()` iterations, the bytes passed to
`SoftSerial_xmit` are exactly the bytes delivered by the read interface,
in order, each truncated to `uint8_t`: none skipped, none duplicated,
none reordered. -/
theorem loop_echoes_exactly (qs : List (List Nat)) (tx : List Nat) :
    echoRun qs tx = tx ++ (qs.flatten).map (· % 256) := by
  induction qs generalizing tx with
  | nil => simp [echoRun]
  | cons q rest ih =>
    simp only [echoRun, List.foldl_cons] at *
    rw [ih, loopBody_snd]
    simp [List.append_assoc]

theorem drainEvents_countP_xmit (q : List Nat) :
    (drainEvents q).countP isXmitEv = q.length := by
  induction q with
  | nil => simp [drainEvents, isXmitEv, List.countP_cons]
  | cons b rest ih => simp [drainEvents, List.countP_cons, isXmitEv, ih]

theorem drainEvents_countP_nsread (q : List Nat) :
    (drainEvents q).countP isNonSentinelReadEv = q.length := by
  induction q with
  | nil => simp [drainEvents, isNonSentinelReadEv, List.countP_cons]
  | cons b rest ih =>
    have hb : ((b : Int) != -1) = true := by
      simp [bne_iff_ne]
    simp [drainEvents, List.countP_cons, isNonSentinelReadEv, ih, hb]

theorem drainEvents_getLast (q : List Nat) :
    (drainEvents q).getLast? = some (Event.readE (-1)) := by
  induction q with
  | nil => simp [drainEvents]
  | cons b rest ih =>
    have hne : drainEvents rest ≠ [] := by
      cases rest <;> simp [drainEvents]
    simp [drainEvents, List.getLast?_cons, ih, hne]

/-- C2: `SoftSerial_read()` returns the sentinel `-1` exactly when the RX
queue has no data; in the `loop()` body it is never called when
`SoftSerial_empty()` reported no data; each xmit corresponds to exactly
one non-sentinel read (so the sentinel is never forwarded to
`SoftSerial_xmit`); and draining stops exactly at the sentinel: the
sentinel-returning read is the final event of a non-empty drain. -/
theorem read_sentinel_discipline (q : List Nat) :
    ((SoftSerial_read q).1 = -1 ↔ SoftSerial_empty q = true) ∧
    (SoftSerial_empty q = true → (loopEvents q).countP isReadEv = 0) ∧
    ((loopEvents q).countP isXmitEv = (loopEvents q).countP isNonSentinelReadEv) ∧
    (SoftSerial_empty q = false → (loopEvents q).getLast? = some (Event.readE (-1))) := by
  refine ⟨?_, ?_, ?_, ?_⟩
  · cases q with
    | nil => simp [SoftSerial_read, SoftSerial_empty]
    | cons b rest =>
      simp [SoftSerial_read, SoftSerial_empty]
  · intro h
    simp [loopEvents, h, List.countP_cons, isReadEv]
  · by_cases h : SoftSerial_empty q
    · simp [loopEvents, h, List.countP_cons, isXmitEv, isNonSentinelReadEv]
    · simp only [loopEvents, h, if_false, Bool.false_eq_true]
      rw [List.countP_cons, List.countP_cons]
      simp [isXmitEv, isNonSentinelReadEv, drainEvents_countP_xmit,
        drainEvents_countP_nsread]
  · intro h
    have hne : drainEvents q ≠ [] := by
      cases q <;> simp [drainEvents]
    simp [loopEvents, h, List.getLast?_cons, hne, drainEvents_getLast]

/-- Witness for `read_sentinel_discipline` at the concrete queue `[65]`. -/
theorem read_sentinel_discipline_witness :
    ((SoftSerial_read [65]).1 = -1 ↔ SoftSerial_empty [65] = true) ∧
    (loopEvents [65]).getLast? = some (Event.readE (-1)) :=
  ⟨(read_sentinel_discipline [65]).1,
   (read_sentinel_discipline [65]).2.2.2 (by decide)⟩

theorem ncDrain_length (q tx : List Nat) :
    ncDrain q.length q tx = some ([], tx ++ q.map (· % 256)) := by
  induction q generalizing tx with
  | nil => simp [ncDrain]
  | cons b rest ih =>
    simp [ncDrain, SoftSerial_read_nc, SoftSerial_xmit, ih, List.append_assoc]

/-- C3: in the unchecked-read variant, `SoftSerial_read_nc()` is called
exactly `cnt` times and the queue is non-empty at every such call (the
result is never `none`, which would flag a violated `available() > 0`
precondition); the drained bytes are exactly the `cnt` counted ones. -/
theorem read_nc_precondition_holds (q tx : List Nat) :
    loopBodyNc q tx = some (if SoftSerial_available q = 0 then q else [],
      tx ++ q.map (· % 256)) := by
  by_cases h : SoftSerial_available q = 0
  · have hq : q = [] := by
      simpa [SoftSerial_available] using h
    subst hq
    simp [loopBodyNc, SoftSerial_available]
  · have hq : q ≠ [] := by
      intro hq
      exact h (by simp [SoftSerial_available, hq])
    simp [loopBodyNc, h, SoftSerial_available, ncDrain_length, hq]

theorem drainEvents_shape (q : List Nat) :
    ∀ e ∈ drainEvents q, (∃ v, e = Event.readE v) ∨ ∃ v, e = Event.xmitE v := by
  induction q with
  | nil =>
    intro e he
    simp [drainEvents] at he
    exact Or.inl ⟨-1, he⟩
  | cons b rest ih =>
    intro e he
    simp only [drainEvents, List.mem_cons] at he
    rcases he with h | h | h
    · exact Or.inl ⟨_, h⟩
    · exact Or.inr ⟨_, h⟩
    · exact ih e h

theorem loopEvents_shape (q : List Nat) :
    ∀ e ∈ loopEvents q,
      (∃ v, e = Event.emptyE v) ∨ (∃ v, e = Event.readE v) ∨ ∃ v, e = Event.xmitE v := by
  intro e he
  simp only [loopEvents] at he
  rcases List.mem_cons.mp he with h | h
  · exact Or.inl ⟨_, h⟩
  · by_cases hq : SoftSerial_empty q
    · simp [hq] at h
    · simp only [hq, Bool.false_eq_true, if_false] at h
      rcases drainEvents_shape q e h with ⟨v, hv⟩ | ⟨v, hv⟩
      · exact Or.inr (Or.inl ⟨v, hv⟩)
      · exact Or.inr (Or.inr ⟨v, hv⟩)

theorem setupOutputEvents_no_init (bcs dco : Nat) :
    ∀ e ∈ setupOutputEvents bcs dco, isInitEv e = false := by
  intro e he
  simp only [setupOutputEvents, xmitEvents, List.mem_append, List.mem_map] at he
  rcases he with ((((((⟨b, -, h⟩ | ⟨b, -, h⟩) | ⟨b, -, h⟩) | ⟨b, -, h⟩) |
    ⟨b, -, h⟩) | ⟨b, -, h⟩) | ⟨b, -, h⟩) <;> subst h <;> rfl

theorem loopTraces_no_init (qs : List (List Nat)) :
    ((qs.map loopEvents).flatten).countP isInitEv = 0 := by
  rw [List.countP_eq_zero]
  intro e he
  rw [List.mem_flatten] at he
  obtain ⟨l, hl, hel⟩ := he
  obtain ⟨q, -, rfl⟩ := List.mem_map.mp hl
  rcases loopEvents_shape q e hel with ⟨v, rfl⟩ | ⟨v, rfl⟩ | ⟨v, rfl⟩ <;> simp [isInitEv]

/-- C4: in every execution of `main()`, `SoftSerial_init()` is called
exactly once, and everything before that call is board bring-up: the call
precedes `__enable_interrupt()` and every `SoftSerial_xmit`,
`SoftSerial_read`, `SoftSerial_empty`, `SoftSerial_available` and
`SoftSerial_read_nc` call of the execution. -/
theorem init_exactly_once_before_all (nBoard bcs dco : Nat) (r : InitResult)
    (qs : List (List Nat)) :
    ∃ pre post, mainTrace nBoard bcs dco r qs = pre ++ Event.initE :: post ∧
      (∀ e ∈ pre, e = Event.boardE) ∧
      (mainTrace nBoard bcs dco r qs).countP isInitEv = 1 := by
  refine ⟨List.replicate nBoard Event.boardE,
    Event.geiE :: (setupOutputEvents bcs dco ++ (qs.map loopEvents).flatten),
    ?_, ?_, ?_⟩
  · simp [mainTrace, setupTrace, List.append_assoc]
  · intro e he
    exact List.eq_of_mem_replicate he
  · rw [mainTrace, setupTrace, List.countP_append, List.countP_append]
    have h1 : (List.replicate nBoard Event.boardE).countP isInitEv = 0 := by
      rw [List.countP_eq_zero]
      intro e he
      rw [List.eq_of_mem_replicate he]
      simp [isInitEv]
    have h2 : (setupOutputEvents bcs dco).countP isInitEv = 0 := by
      rw [List.countP_eq_zero]
      intro e he
      simp [setupOutputEvents_no_init bcs dco e he]
    rw [List.countP_cons, List.countP_cons, loopTraces_no_init]
    simp [h1, h2, isInitEv]

theorem drainEvents_length (q : List Nat) :
    (drainEvents q).length = 2 * q.length + 1 := by
  induction q with
  | nil => simp [drainEvents]
  | cons b rest ih => simp [drainEvents, ih]; omega

/-- C7: one `loop()` iteration starts by polling queue state
(`SoftSerial_empty`), contains no interrupt-disabling step and no
blocking wait on a handler, and performs a bounded amount of work (at
most one event per buffered byte for read and xmit, plus the poll and the
final sentinel read) — received data is obtained purely by polling
followed by reads. -/
theorem loop_polls_never_blocks (q : List Nat) :
    (loopEvents q).head? = some (Event.emptyE (SoftSerial_empty q)) ∧
    Event.disableIntE ∉ loopEvents q ∧
    Event.waitE ∉ loopEvents q ∧
    (loopEvents q).length ≤ 2 * q.length + 2 := by
  refine ⟨rfl, ?_, ?_, ?_⟩
  · intro h
    rcases loopEvents_shape q _ h with ⟨v, hv⟩ | ⟨v, hv⟩ | ⟨v, hv⟩ <;> cases hv
  · intro h
    rcases loopEvents_shape q _ h with ⟨v, hv⟩ | ⟨v, hv⟩ | ⟨v, hv⟩ <;> cases hv
  · by_cases hq : SoftSerial_empty q
    · simp [loopEvents, hq]
    · simp [loopEvents, hq, drainEvents_length]

/-- C5 counterexample: at the concrete register values of the
non-calibrating build (BCSCTL1=0x8F, DCOCTL=0x7E) and 5 bring-up steps,
`setup()`'s event trace is identical whether `SoftSerial_init` reports
success or `UnsupportedBaudRate`, and that trace contains transmissions:
`setup()` observes no initialization result before the first transmit —
traffic is sent even on a failed initialization. -/
theorem setup_ignores_init_result :
    setupTrace 5 143 126 InitResult.unsupportedBaudRate =
      setupTrace 5 143 126 InitResult.ok ∧
    0 < (setupTrace 5 143 126 InitResult.unsupportedBaudRate).countP isXmitEv := by
  constructor
  · rfl
  · decide

/-- C5 amended: `setup()` calls `SoftSerial_init()` before the first
transmit — every event preceding the init call is a board bring-up step,
never a transmission — but it observes no initialization result: its
trace is the same for every outcome `SoftSerial_init` reports. -/
theorem setup_init_before_first_xmit_unobserved (nBoard bcs dco : Nat)
    (r : InitResult) :
    setupTrace nBoard bcs dco r = setupTrace nBoard bcs dco InitResult.ok ∧
    ∃ pre post, setupTrace nBoard bcs dco r = pre ++ Event.initE :: post ∧
      ∀ e ∈ pre, isXmitEv e = false := by
  refine ⟨rfl, List.replicate nBoard Event.boardE,
    Event.geiE :: setupOutputEvents bcs dco, rfl, ?_⟩
  intro e he
  rw [List.eq_of_mem_replicate he]
  rfl

theorem toUint8_lt (c : Int) : toUint8 c < 256 := by
  unfold toUint8
  omega

theorem hextbl_getD_lt (i : Nat) : hextbl.getD i 0 < 256 := by
  by_cases h : i < 16
  · interval_cases i <;> decide
  · rw [List.getD_eq_default]
    · decide
    · simpa [hextbl] using Nat.le_of_not_lt h

theorem print_eq_printedBytes (m tx : List Nat) :
    print m tx = tx ++ printedBytes m := by
  induction m generalizing tx with
  | nil => simp [print, printedBytes]
  | cons b rest ih =>
    cases rest with
    | nil => simp [print, printedBytes, SoftSerial_xmit]
    | cons r rs =>
      by_cases h : r = 0
      · simp [print, printedBytes, h, SoftSerial_xmit]
      · simp [print, printedBytes, h, SoftSerial_xmit, ih, List.append_assoc]

/-- C6: each byte-output path — `putchar`, `print_hexb`, `print`, and the
echo loop body — goes through the single blocking `SoftSerial_xmit`
operation: each call appends exactly its bytes to the accepted TX list
(every byte passed is accepted), and no full/not-full result is
inspected (`putchar` returns 0 unconditionally). -/
theorem all_output_paths_blocking_xmit :
    (∀ c tx, putchar c tx = (0, tx ++ [toUint8 c])) ∧
    (∀ b tx, print_hexb b tx =
      tx ++ [hextbl.getD (b >>> 4) 0, hextbl.getD (b &&& 0x0F) 0]) ∧
    (∀ m tx, print m tx = tx ++ printedBytes m) ∧
    (∀ rx tx, (loopBody rx tx).2 = tx ++ rx.map (· % 256)) := by
  refine ⟨?_, ?_, print_eq_printedBytes, loopBody_snd⟩
  · intro c tx
    simp [putchar, SoftSerial_xmit, Nat.mod_eq_of_lt (toUint8_lt c)]
  · intro b tx
    have h3 : ∀ i : Nat, hextbl[i]?.getD 0 < 256 := fun i => by
      simpa [List.getD] using hextbl_getD_lt i
    simp [print_hexb, SoftSerial_xmit, List.append_assoc]
    exact ⟨h3 _, h3 _⟩

theorem printedBytes_string (cs : List Nat) (hz : 0 ∉ cs)
    (hb : ∀ b ∈ cs, b < 256) :
    printedBytes (cs ++ [0]) = if cs = [] then [0] else cs := by
  induction cs with
  | nil => simp [printedBytes]
  | cons b rest ih =>
    have hb0 : b < 256 := hb b (by simp)
    have hz' : 0 ∉ rest := fun h => hz (List.mem_cons_of_mem _ h)
    have hb' : ∀ x ∈ rest, x < 256 := fun x hx => hb x (List.mem_cons_of_mem _ hx)
    cases rest with
    | nil => simp [printedBytes, Nat.mod_eq_of_lt hb0]
    | cons r rs =>
      have hr : r ≠ 0 := by
        intro h
        exact hz (by simp [h])
      have hrec : printedBytes ((r :: rs) ++ [0]) = r :: rs := by
        rw [ih hz' hb']
        simp
      calc printedBytes ((b :: r :: rs) ++ [0])
          = b % 256 :: printedBytes ((r :: rs) ++ [0]) := by
            simp [printedBytes, hr]
        _ = if b :: r :: rs = [] then [0] else b :: r :: rs := by
            rw [hrec, Nat.mod_eq_of_lt hb0]
            simp

/-- C8: `print(s)` transmits the first character unconditionally, then
each subsequent character up to but excluding the NUL terminator: a
non-empty string's characters are transmitted exactly and in order, and
the empty string transmits the single byte 0x00. -/
theorem print_string_semantics (cs tx : List Nat) (hz : 0 ∉ cs)
    (hb : ∀ b ∈ cs, b < 256) :
    print (cs ++ [0]) tx = tx ++ (if cs = [] then [0] else cs) := by
  rw [print_eq_printedBytes, printedBytes_string cs hz hb]

/-- Witness for `print_string_semantics`: the two-character string "Hi"
(72, 105) is echoed exactly, and the empty string transmits one 0x00. -/
theorem print_string_semantics_witness :
    (0 ∉ ([72, 105] : List Nat)) ∧
    print [72, 105, 0] [] = [72, 105] ∧
    print [0] [] = [0] := by
  refine ⟨by decide, ?_, ?_⟩
  · have h := print_string_semantics [72, 105] [] (by decide) (by decide)
    simpa using h
  · have h := print_string_semantics [] [] (by decide) (by decide)
    simpa using h

set_option maxRecDepth 8192 in
/-- C9: for every byte `c`, `print_hexb(c)` transmits exactly two
characters drawn from `hextbl`'s alphabet "0123456789ABCDEF" — the digit
of the high nibble `c >> 4` then the digit of the low nibble `c & 0x0F` —
and decoding the two emitted digits recovers `c` (a round trip, hence the
encoding is injective). -/
theorem print_hexb_roundtrip (c : Nat) (hc : c < 256) :
    print_hexb c [] = [hextbl.getD (c >>> 4) 0, hextbl.getD (c &&& 0x0F) 0] ∧
    (∀ d ∈ print_hexb c [], d ∈ hextbl) ∧
    hexVal ((print_hexb c []).getD 0 0) * 16 +
      hexVal ((print_hexb c []).getD 1 0) = c := by
  revert hc
  revert c
  decide

/-- Witness for `print_hexb_roundtrip` at the byte 0xA7 = 167. -/
theorem print_hexb_roundtrip_witness :
    (167 : Nat) < 256 ∧
    hexVal ((print_hexb 167 []).getD 0 0) * 16 +
      hexVal ((print_hexb 167 []).getD 1 0) = 167 :=
  ⟨by decide, (print_hexb_roundtrip 167 (by decide)).2.2⟩

/-- C10: one step of `Set_DCO`'s calibration loop modifies `BCSCTL1` only
in an iteration where `DCOCTL` wrapped around (decrement producing 0xFF,
or increment producing 0x00); the RSEL low nibble is decremented only
when nonzero and incremented only when below 0x0F, never borrowing from
or carrying into the upper nibble (the high nibble of `BCSCTL1` is
preserved); and the loop exits exactly when the measured capture
difference equals the requested `Delta`. -/
theorem dco_rsel_invariant (delta taccr0 : Nat) (s : DcoState)
    (hd : s.dcoctl < 256) (hb : s.bcsctl1 < 256) :
    ((dcoStep delta taccr0 s).2 = true ↔
      delta = (taccr0 % 65536 + 65536 - s.oldcapture % 65536) % 65536) ∧
    ((dcoStep delta taccr0 s).1.bcsctl1 ≠ s.bcsctl1 →
      (dcoStep delta taccr0 s).1.dcoctl = 0xFF ∨
        (dcoStep delta taccr0 s).1.dcoctl = 0x00) ∧
    ((dcoStep delta taccr0 s).1.bcsctl1 / 16 = s.bcsctl1 / 16) ∧
    ((dcoStep delta taccr0 s).1.bcsctl1 % 16 ≠ s.bcsctl1 % 16 →
      ((dcoStep delta taccr0 s).1.bcsctl1 % 16 + 1 = s.bcsctl1 % 16 ∧
        s.bcsctl1 % 16 ≠ 0) ∨
      ((dcoStep delta taccr0 s).1.bcsctl1 % 16 = s.bcsctl1 % 16 + 1 ∧
        s.bcsctl1 % 16 ≠ 15)) := by
  simp only [dcoStep]
  split_ifs <;> refine ⟨?_, ?_, ?_, ?_⟩ <;> simp_all <;> omega

/-- Witness for `dco_rsel_invariant`: Delta 50, capture 100, DCOCTL 0,
BCSCTL1 0x8F — a decrement iteration in which DCOCTL rolls under. -/
theorem dco_rsel_invariant_witness :
    ((0 : Nat) < 256 ∧ (143 : Nat) < 256) ∧
    (dcoStep 50 100 ⟨0, 143, 0⟩).1.bcsctl1 / 16 = (143 : Nat) / 16 :=
  ⟨⟨by decide, by decide⟩,
   (dco_rsel_invariant 50 100 ⟨0, 143, 0⟩ (by decide) (by decide)).2.2.1⟩
